import Mathlib

/-!
Verification of the Spotify-Agent repository's paginated fetch-and-forward
pipeline, batch forwarder and tool layer.

The Python sources are shallowly embedded as pure Lean functions:

* the vendor page-fetch capability of each client becomes a function
  argument returning `Except Unit` (raising an exception is the `error`
  case, so an escaping exception would show in the return type);
* the fetch loops of `LastFMClient.get_recent_tracks` and
  `SpotifyClient.get_saved_tracks` are driven by an explicit fuel argument
  (the Python loops are unbounded `while True` loops) and record every
  observable effect - each page request, each forward to the MCP
  collector, each rate-limit sleep - in an event trace;
* `send_to_mcp` takes the HTTP POST as a capability classifying the
  delivery outcome, and returns the boolean result paired with the number
  of POST attempts made;
* the tool wrappers of `server.py` take the facade methods they call as
  function arguments (several of those methods do not exist in the
  repository's client classes; the wrappers' own behaviour - validation,
  clamping, pass-through - is what is embedded here).
-/

/-- One observable effect of a fetch loop: a vendor page request (keyed by
the page number for Last.fm, the item offset for Spotify, the chunk start
index for audio features), a forward of one batch of mapped records to an
MCP endpoint, or a rate-limit sleep of the given number of milliseconds. -/
inductive FetchEvent (τ : Type) where
  | request (key : Nat)
  | forward (endpoint : String) (batch : List τ)
  | sleep (ms : Nat)
  deriving DecidableEq

/-- Whether an event is a vendor page request. -/
def FetchEvent.isRequest {τ : Type} : FetchEvent τ → Bool
  | FetchEvent.request _ => true
  | _ => false

/-- Whether an event is a rate-limit sleep. -/
def FetchEvent.isSleep {τ : Type} : FetchEvent τ → Bool
  | FetchEvent.sleep _ => true
  | _ => false

/-- Number of vendor page requests in a trace. -/
def countRequests {τ : Type} (evs : List (FetchEvent τ)) : Nat :=
  evs.countP FetchEvent.isRequest

/-- The Python comparisons `processed_pages >= max_pages` (Last.fm) and
`total_fetched >= max_tracks` (Spotify), which are skipped when the cap is
`None`. -/
def capReached (cap : Option Nat) (n : Nat) : Bool :=
  match cap with
  | some m => m ≤ n
  | none => false

/-- The `while True` loop of `LastFMClient.get_recent_tracks`
(lastfm_client.py lines 115-168).  Per iteration: stop before requesting
when `processed_pages >= max_pages`; fetch the page (an exception stops the
loop with what was accumulated); stop on an empty page; map every item,
forward the page's mapped batch when sending is on and the batch is
non-empty; increment `processed_pages`; stop after a page shorter than
`limit`; otherwise sleep 0.2 s and continue with `page + 1`. -/
def lfmLoop {ρ τ : Type} (fetch : Nat → Except Unit (List ρ)) (mapRec : ρ → τ)
    (limit : Nat) (maxPages : Option Nat) (send : Bool) :
    Nat → Nat → Nat → List τ × List (FetchEvent τ)
  | 0, _, _ => ([], [])
  | fuel+1, page, processed =>
    if capReached maxPages processed then ([], [])
    else
      match fetch page with
      | Except.error _ => ([], [FetchEvent.request page])
      | Except.ok results =>
        if results.isEmpty then ([], [FetchEvent.request page])
        else
          let pageTracks := results.map mapRec
          let fwdEvents := if send && !pageTracks.isEmpty
            then [FetchEvent.forward "/submit/lastfm/scrobbles" pageTracks]
            else []
          if results.length < limit then
            (pageTracks, FetchEvent.request page :: fwdEvents)
          else
            let r := lfmLoop fetch mapRec limit maxPages send fuel (page+1) (processed+1)
            (pageTracks ++ r.1,
             FetchEvent.request page :: (fwdEvents ++ FetchEvent.sleep 200 :: r.2))

/-- `LastFMClient.get_recent_tracks`: when the user lookup fails the method
returns `[]` without any request; otherwise it runs the fetch loop from
page 1 with no page processed yet. -/
def LastFMClient.get_recent_tracks {ρ τ : Type} (userOk : Bool)
    (fetch : Nat → Except Unit (List ρ)) (mapRec : ρ → τ)
    (limit : Nat) (maxPages : Option Nat) (send : Bool) (fuel : Nat) :
    List τ × List (FetchEvent τ) :=
  if userOk then lfmLoop fetch mapRec limit maxPages send fuel 1 0 else ([], [])

/-- One raw page of the Spotify saved-tracks endpoint: the `items` list and
the truthiness of the `next` cursor. -/
structure SpotifyPage (ρ : Type) where
  items : List ρ
  next : Bool
  deriving DecidableEq

/-- The `while True` loop of `SpotifyClient.get_saved_tracks`
(spotify_client.py lines 107-155).  Per iteration: fetch at the current
offset (an exception stops the loop); stop when the response is falsy or
has no items; map the items whose `track` field is present, forward the
page's mapped batch when sending is on and the batch is non-empty; when the
response carries a `next` cursor, advance the offset and stop only if
`total_fetched` has reached `max_tracks` (the just-accumulated page is
kept even when it overshoots the cap); when there is no `next` cursor,
stop.  There is no sleep anywhere in this loop. -/
def spLoop {ρ τ : Type} (fetch : Nat → Except Unit (Option (SpotifyPage ρ)))
    (mapRec : ρ → Option τ) (limit : Nat) (maxTracks : Option Nat) (send : Bool) :
    Nat → Nat → Nat → List τ × List (FetchEvent τ)
  | 0, _, _ => ([], [])
  | fuel+1, offset, total =>
    match fetch offset with
    | Except.error _ => ([], [FetchEvent.request offset])
    | Except.ok none => ([], [FetchEvent.request offset])
    | Except.ok (some results) =>
      if results.items.isEmpty then ([], [FetchEvent.request offset])
      else
        let pageTracks := results.items.filterMap mapRec
        let total2 := total + pageTracks.length
        let fwdEvents := if send && !pageTracks.isEmpty
          then [FetchEvent.forward "/submit/spotify/tracks" pageTracks]
          else []
        if results.next then
          if capReached maxTracks total2 then
            (pageTracks, FetchEvent.request offset :: fwdEvents)
          else
            let r := spLoop fetch mapRec limit maxTracks send fuel (offset + limit) total2
            (pageTracks ++ r.1, FetchEvent.request offset :: (fwdEvents ++ r.2))
        else
          (pageTracks, FetchEvent.request offset :: fwdEvents)

/-- `SpotifyClient.get_saved_tracks`: when the client is not initialized the
method returns `[]` without any request; otherwise it runs the fetch loop
from offset 0 with nothing fetched yet. -/
def SpotifyClient.get_saved_tracks {ρ τ : Type} (spOk : Bool)
    (fetch : Nat → Except Unit (Option (SpotifyPage ρ))) (mapRec : ρ → Option τ)
    (limit : Nat) (maxTracks : Option Nat) (send : Bool) (fuel : Nat) :
    List τ × List (FetchEvent τ) :=
  if spOk then spLoop fetch mapRec limit maxTracks send fuel 0 0 else ([], [])

/-- Classification of one HTTP POST attempt, matching the exception cases
caught by `send_to_mcp` plus the successful 2xx case
(`response.raise_for_status()` not raising). -/
inductive DeliveryOutcome where
  | success
  | connectionError
  | timeout
  | httpError (status : Nat) (body : String)
  | requestError
  | unexpected
  deriving DecidableEq

/-- The URL built by `send_to_mcp`:
`f"{server_url.rstrip('/')}/{endpoint.lstrip('/')}"`. -/
def joinUrl (base endpoint : String) : String :=
  (base.dropRightWhile (fun c => c = '/')) ++ "/" ++ (endpoint.dropWhile (fun c => c = '/'))

/-- `send_to_mcp` (identical in lastfm_client.py lines 28-62 and
spotify_client.py lines 31-65).  The checks run in source order: a falsy
`server_url` (absent or empty) returns `False` before anything else - in
particular before the empty-`data` check - with no POST; empty `data` then
returns `True` with no POST; otherwise the records are JSON-encoded (an
encoding failure is caught and returns `False` with no POST) and exactly
one POST is attempted, whose outcome maps to `True` on success and `False`
on every failure class.  The second component counts POST attempts. -/
def send_to_mcp {ρ : Type} (endpoint : String) (data : List ρ)
    (serverUrl : Option String) (encode : List ρ → Except Unit String)
    (post : String → String → DeliveryOutcome) : Bool × Nat :=
  match serverUrl with
  | none => (false, 0)
  | some url =>
    if url.isEmpty then (false, 0)
    else if data.isEmpty then (true, 0)
    else
      match encode data with
      | Except.error _ => (false, 0)
      | Except.ok payload =>
        match post (joinUrl url endpoint) payload with
        | DeliveryOutcome.success => (true, 1)
        | _ => (false, 1)

/-- The chunk decomposition performed by
`for i in range(0, len(track_ids), chunk_size)` with `chunk_size = 100` in
`SpotifyClient.get_audio_features`. -/
def chunksOf100 {ι : Type} (ids : List ι) : List (List ι) :=
  if h : ids.isEmpty then []
  else ids.take 100 :: chunksOf100 (ids.drop 100)
termination_by ids.length
decreasing_by
  cases ids with
  | nil => simp at h
  | cons x xs => simp only [List.length_drop, List.length_cons]; omega

/-- The records one chunk contributes: the non-null entries of the vendor
reply, or nothing when the vendor call for that chunk raised. -/
def chunkResult {ι φ : Type} (api : List ι → Except Unit (List (Option φ)))
    (c : List ι) : List φ :=
  match api c with
  | Except.ok features => features.filterMap id
  | Except.error _ => []

/-- The chunk loop of `SpotifyClient.get_audio_features` (spotify_client.py
lines 171-192).  Each chunk of at most 100 ids gets one vendor call; on
success the non-null features are kept and the batch, when non-empty and
sending is on, is forwarded; an exception on a chunk is caught and the loop
continues with the next chunk. -/
def audioFeaturesLoop {ι φ : Type} (api : List ι → Except Unit (List (Option φ)))
    (send : Bool) (i : Nat) (ids : List ι) : List φ × List (FetchEvent φ) :=
  if h : ids.isEmpty then ([], [])
  else
    let chunk := ids.take 100
    let r := audioFeaturesLoop api send (i + 100) (ids.drop 100)
    match api chunk with
    | Except.ok features =>
      let valid := features.filterMap id
      let fwdEvents := if send && !valid.isEmpty
        then [FetchEvent.forward "/submit/spotify/features" valid]
        else []
      (valid ++ r.1, FetchEvent.request i :: (fwdEvents ++ r.2))
    | Except.error _ => (r.1, FetchEvent.request i :: r.2)
termination_by ids.length
decreasing_by
  cases ids with
  | nil => simp at h
  | cons x xs => simp only [List.length_drop, List.length_cons]; omega

/-- `SpotifyClient.get_audio_features`: `None` when the client is not
initialized, `[]` without any vendor call for an empty id list, otherwise
the chunk loop starting at index 0. -/
def SpotifyClient.get_audio_features {ι φ : Type} (spOk : Bool)
    (api : List ι → Except Unit (List (Option φ))) (send : Bool) (ids : List ι) :
    Option (List φ × List (FetchEvent φ)) :=
  if spOk then
    if ids.isEmpty then some ([], [])
    else some (audioFeaturesLoop api send 0 ids)
  else none

/-- Failure surfaced by a tool wrapper in server.py: the `ValueError`
raised by the wrapper's own enum validation, or an exception propagating
out of the wrapped facade call. -/
inductive ToolError where
  | valueError
  | facadeError
  deriving DecidableEq

/-- The accepted time-range tokens of the Spotify top-tracks tool. -/
def validTimeRanges : List String := ["short_term", "medium_term", "long_term"]

/-- The tool `get_spotify_user_top_tracks` (server.py lines 83-88): raises
`ValueError` when `time_range` is not one of the three accepted tokens,
otherwise returns the facade call's outcome unchanged - there is no
try/except in the wrapper, so a facade exception propagates. -/
def Server.get_spotify_user_top_tracks {ρ : Type}
    (facade : String → Nat → Except ToolError (List ρ))
    (time_range : String) (limit : Nat) : Except ToolError (List ρ) :=
  if time_range ∈ validTimeRanges then facade time_range limit
  else Except.error ToolError.valueError

/-- The duck-typed `track_ids` argument of the audio-features tool: a
delimited raw string or an ordered sequence of id strings. -/
inductive StrOrList where
  | str (s : String)
  | list (ids : List String)
  deriving DecidableEq

/-- The tool `get_spotify_track_audio_features` (server.py lines 78-81):
its body is a single return of the facade call with `track_ids` passed
through as received - server.py contains no splitting or other coercion of
a delimited string. -/
def Server.get_spotify_track_audio_features {ρ : Type}
    (facade : StrOrList → Except ToolError (List ρ))
    (track_ids : StrOrList) : Except ToolError (List ρ) :=
  facade track_ids

/-- The tool `get_lastfm_recent_tracks` (server.py lines 130-152): clamps
`limit_per_page` to `min(limit_per_page, 200)` and returns the facade
call's outcome unchanged (no try/except in the wrapper). -/
def Server.get_lastfm_recent_tracks {ρ : Type}
    (facade : Nat → Option Nat → Option Nat → Option Nat → Except ToolError (List ρ))
    (limit_per_page : Nat) (max_pages time_from time_to : Option Nat) :
    Except ToolError (List ρ) :=
  facade (min limit_per_page 200) max_pages time_from time_to

/-- Per-page forwarding discipline of a trace: every forward event stands
immediately after the request that fetched its page, its batch related to
that page by `good`, and every request not followed by a forward fetched a
page with nothing to forward (`bad`); a forward never appears without its
page request directly before it. -/
def perPageBatches {τ : Type} (good : Nat → String → List τ → Prop)
    (bad : Nat → Prop) : List (FetchEvent τ) → Prop
  | [] => True
  | FetchEvent.sleep _ :: rest => perPageBatches good bad rest
  | FetchEvent.forward _ _ :: _ => False
  | FetchEvent.request p :: FetchEvent.forward ep b :: rest =>
      good p ep b ∧ perPageBatches good bad rest
  | [FetchEvent.request p] => bad p
  | FetchEvent.request p :: FetchEvent.request q :: rest =>
      bad p ∧ perPageBatches good bad (FetchEvent.request q :: rest)
  | FetchEvent.request p :: FetchEvent.sleep ms :: rest =>
      bad p ∧ perPageBatches good bad (FetchEvent.sleep ms :: rest)

/-- A Last.fm page whose mapped records a forward may carry: the batch is
exactly the map of the page the fetch returned for that page number. -/
def lfmGood {ρ τ : Type} (fetch : Nat → Except Unit (List ρ)) (mapRec : ρ → τ)
    (p : Nat) (ep : String) (b : List τ) : Prop :=
  ep = "/submit/lastfm/scrobbles" ∧
  ∃ res, fetch p = Except.ok res ∧ res.isEmpty = false ∧ b = res.map mapRec

/-- A Last.fm page that yields no forward: the fetch raised or returned an
empty page. -/
def lfmBad {ρ : Type} (fetch : Nat → Except Unit (List ρ)) (p : Nat) : Prop :=
  fetch p = Except.error () ∨ fetch p = Except.ok ([] : List ρ)

/-- A Spotify page whose mapped records a forward may carry: the batch is
exactly the filter-mapped items of the page fetched at that offset. -/
def spGood {ρ τ : Type} (fetch : Nat → Except Unit (Option (SpotifyPage ρ)))
    (mapRec : ρ → Option τ) (off : Nat) (ep : String) (b : List τ) : Prop :=
  ep = "/submit/spotify/tracks" ∧
  ∃ pg, fetch off = Except.ok (some pg) ∧ b = pg.items.filterMap mapRec ∧
    b.isEmpty = false

/-- A Spotify page that yields no forward: the fetch raised, returned a
falsy response, or a page whose mapped batch is empty. -/
def spBad {ρ τ : Type} (fetch : Nat → Except Unit (Option (SpotifyPage ρ)))
    (mapRec : ρ → Option τ) (off : Nat) : Prop :=
  fetch off = Except.error () ∨ fetch off = Except.ok none ∨
  ∃ pg, fetch off = Except.ok (some pg) ∧ (pg.items.filterMap mapRec).isEmpty = true

/-- No request occurs before the first sleep of at least the given number
of milliseconds. -/
def noRequestBeforeSleep {τ : Type} (ms : Nat) : List (FetchEvent τ) → Bool
  | [] => true
  | FetchEvent.request _ :: _ => false
  | FetchEvent.sleep m :: rest =>
      if ms ≤ m then true else noRequestBeforeSleep ms rest
  | FetchEvent.forward _ _ :: rest => noRequestBeforeSleep ms rest

/-- After every request in the trace, a sleep of at least the given number
of milliseconds occurs before any further request: the fixed courtesy
delay between consecutive page fetches. -/
def pausesBetweenRequests {τ : Type} (ms : Nat) : List (FetchEvent τ) → Bool
  | [] => true
  | FetchEvent.request _ :: rest =>
      noRequestBeforeSleep ms rest && pausesBetweenRequests ms rest
  | FetchEvent.sleep _ :: rest => pausesBetweenRequests ms rest
  | FetchEvent.forward _ _ :: rest => pausesBetweenRequests ms rest

/-- The concatenated mapped records of `n` consecutive Last.fm pages
starting at `start`, where page `j` holds the raw items `ps j`. -/
def lfmMappedPages {ρ τ : Type} (ps : Nat → List ρ) (mapRec : ρ → τ) :
    Nat → Nat → List τ
  | _, 0 => []
  | start, n+1 => (ps start).map mapRec ++ lfmMappedPages ps mapRec (start+1) n

/-- The concatenated mapped records of `n` consecutive Spotify pages
starting at page index `j` (0-based), where page `m` holds the raw items
`items m`. -/
def spMappedPages {ρ τ : Type} (items : Nat → List ρ) (mapRec : ρ → Option τ) :
    Nat → Nat → List τ
  | _, 0 => []
  | j, n+1 => (items j).filterMap mapRec ++ spMappedPages items mapRec (j+1) n

theorem countRequests_nil {τ : Type} : countRequests ([] : List (FetchEvent τ)) = 0 := rfl

theorem countRequests_cons {τ : Type} (e : FetchEvent τ) (l : List (FetchEvent τ)) :
    countRequests (e :: l) = countRequests l + (if e.isRequest then 1 else 0) :=
  List.countP_cons _ _ _

theorem countRequests_append {τ : Type} (a b : List (FetchEvent τ)) :
    countRequests (a ++ b) = countRequests a + countRequests b :=
  List.countP_append _ _ _

theorem countRequests_fwdIf {τ : Type} (c : Bool) (ep : String) (b : List τ) :
    countRequests (if c then [FetchEvent.forward ep b] else []) = 0 := by
  cases c <;>
    simp [countRequests, List.countP_cons, List.countP_nil, FetchEvent.isRequest]

theorem isEmpty_map_eq {ρ τ : Type} (f : ρ → τ) (l : List ρ) :
    (l.map f).isEmpty = l.isEmpty := by
  cases l <;> rfl

/-- The Last.fm loop issues at most `mp - processed` further requests when
`max_pages = mp`: the guard `processed_pages >= max_pages` runs before
every request. -/
theorem lfmLoop_requests_le {rho tau : Type} (fetch : Nat -> Except Unit (List rho))
    (mapRec : rho -> tau) (limit mp : Nat) (send : Bool) :
    forall fuel page processed,
      countRequests (lfmLoop fetch mapRec limit (some mp) send fuel page processed).2 <=
        mp - processed := by
  intro fuel
  induction fuel with
  | zero => intro page processed; simp [lfmLoop, countRequests]
  | succ n ih =>
    intro page processed
    by_cases hcap : mp <= processed
    . simp [lfmLoop, capReached, hcap, countRequests]
    . cases hf : fetch page with
      | error e =>
        simp [lfmLoop, capReached, hcap, hf, countRequests_cons, countRequests_nil,
          FetchEvent.isRequest]
        omega
      | ok results =>
        by_cases hempty : results.isEmpty = true
        . simp [lfmLoop, capReached, hcap, hf, hempty, countRequests_cons,
            countRequests_nil, FetchEvent.isRequest]
          omega
        . by_cases hshort : results.length < limit
          . simp [lfmLoop, capReached, hcap, hf, hempty, hshort, countRequests_cons,
              countRequests_nil, countRequests_fwdIf, FetchEvent.isRequest]
            omega
          . have hrec := ih (page + 1) (processed + 1)
            simp [lfmLoop, capReached, hcap, hf, hempty, hshort, countRequests_cons,
              countRequests_nil, countRequests_append, countRequests_fwdIf,
              FetchEvent.isRequest]
            omega

/-- The Spotify loop keeps the overshoot past `max_tracks` below one page:
every page but the first is requested only while the running total is
still under the cap, so the returned count stays under
`max_tracks - 1 + limit` when pages respect the page size. -/
theorem spLoop_length_le {rho tau : Type}
    (fetch : Nat -> Except Unit (Option (SpotifyPage rho)))
    (mapRec : rho -> Option tau) (limit mt : Nat) (send : Bool)
    (hpage : forall off pg, fetch off = Except.ok (some pg) -> pg.items.length <= limit) :
    forall fuel offset total,
      (spLoop fetch mapRec limit (some mt) send fuel offset total).1.length <=
        (mt - total - 1) + limit := by
  intro fuel
  induction fuel with
  | zero => intro o t; simp [spLoop]
  | succ n ih =>
    intro o t
    cases hf : fetch o with
    | error e => simp [spLoop, hf]
    | ok res =>
      cases res with
      | none => simp [spLoop, hf]
      | some pg =>
        have hlen : (pg.items.filterMap mapRec).length <= limit :=
          le_trans (List.length_filterMap_le _ _) (hpage o pg hf)
        by_cases hempty : pg.items.isEmpty = true
        . simp [spLoop, hf, hempty]
        . cases hnext : pg.next with
          | false =>
            simp [spLoop, hf, hempty, hnext]
            omega
          | true =>
            by_cases hcap : mt <= t + (pg.items.filterMap mapRec).length
            . simp [spLoop, hf, hempty, hnext, capReached, hcap]
              omega
            . have hrec := ih (o + limit) (t + (pg.items.filterMap mapRec).length)
              simp [spLoop, hf, hempty, hnext, capReached, hcap, List.length_append]
              omega

/-- C1 (amended): for every FetchWindow, `LastFMClient.get_recent_tracks`
issues at most `max_pages` page requests when `max_pages` is set; in
`SpotifyClient.get_saved_tracks` with `max_tracks` set, no further page is
requested once the cap is reached, so when every fetched page holds at most
`limit_per_req` items the returned record count stays below
`max_tracks - 1 + limit_per_req` - but, as the counterexample shows, it can
exceed `max_tracks` itself, because the cap is checked only after the whole
page has been accumulated. -/
theorem C1_amended (rho tau rho2 tau2 : Type)
    (fetch : Nat -> Except Unit (List rho)) (mapRec : rho -> tau)
    (limit mp fuel : Nat) (send userOk : Bool)
    (fetch2 : Nat -> Except Unit (Option (SpotifyPage rho2))) (mapRec2 : rho2 -> Option tau2)
    (limit2 mt fuel2 : Nat) (send2 spOk : Bool)
    (hpage : forall off pg, fetch2 off = Except.ok (some pg) -> pg.items.length <= limit2) :
    countRequests (LastFMClient.get_recent_tracks userOk fetch mapRec limit (some mp) send fuel).2 <= mp ∧
    (SpotifyClient.get_saved_tracks spOk fetch2 mapRec2 limit2 (some mt) send2 fuel2).1.length <=
      (mt - 1) + limit2 := by
  constructor
  . cases userOk with
    | false => simp [LastFMClient.get_recent_tracks, countRequests]
    | true =>
      have h := lfmLoop_requests_le fetch mapRec limit mp send fuel 1 0
      simpa [LastFMClient.get_recent_tracks] using h
  . cases spOk with
    | false => simp [SpotifyClient.get_saved_tracks]
    | true =>
      have h := spLoop_length_le fetch2 mapRec2 limit2 mt send2 hpage fuel2 0 0
      simpa [SpotifyClient.get_saved_tracks] using h

/-- C1 counterexample: with `max_tracks = 1` and a vendor page of two items
carrying a `next` cursor, `SpotifyClient.get_saved_tracks` returns two
records - the total returned record count exceeds `max_items`, refuting the
claim that it never does. -/
theorem C1_counterexample :
    ¬ ((SpotifyClient.get_saved_tracks true
        (fun _ => Except.ok (some (SpotifyPage.mk [1, 2] true)))
        (fun x => some (x : Nat)) 2 (some 1) true 5).1.length <= 1) := by
  decide

/-- C1 witness: the amended bound at a concrete window. -/
theorem C1_witness :
    countRequests (LastFMClient.get_recent_tracks true
      (fun _ => Except.ok [(0 : Nat)]) (fun x => x) 1 (some 2) true 5).2 <= 2 ∧
    (SpotifyClient.get_saved_tracks true
      (fun _ => Except.ok (none : Option (SpotifyPage Nat)))
      (fun x => some (x : Nat)) 50 (some 10) true 5).1.length <= (10 - 1) + 50 :=
  C1_amended Nat Nat Nat Nat (fun _ => Except.ok [0]) (fun x => x) 1 2 5 true true
    (fun _ => Except.ok none) (fun x => some x) 50 10 5 true true
    (fun off pg h => by simp at h)

/-- When the Last.fm capability returns `n` full non-empty pages from
`page` on and raises on page `page + n`, the loop returns exactly the
mapped records of those `n` pages: the exception is caught at the loop
boundary and the accumulated partial result is returned. -/
theorem lfmLoop_error_partial {rho tau : Type} (fetch : Nat -> Except Unit (List rho))
    (mapRec : rho -> tau) (limit : Nat) (send : Bool)
    (hlim : 0 < limit) (ps : Nat -> List rho) :
    forall n fuel page processed,
      (forall j, page <= j -> j < page + n -> fetch j = Except.ok (ps j)) ->
      (forall j, page <= j -> j < page + n -> (ps j).length = limit) ->
      fetch (page + n) = Except.error () ->
      n < fuel ->
      (lfmLoop fetch mapRec limit none send fuel page processed).1 =
        lfmMappedPages ps mapRec page n := by
  intro n
  induction n with
  | zero =>
    intro fuel page processed hok hlen herr hfuel
    cases fuel with
    | zero => omega
    | succ m =>
      have h0 : fetch page = Except.error () := by simpa using herr
      simp [lfmLoop, capReached, h0, lfmMappedPages]
  | succ k ih =>
    intro fuel page processed hok hlen herr hfuel
    cases fuel with
    | zero => omega
    | succ m =>
      have hokp : fetch page = Except.ok (ps page) := hok page le_rfl (by omega)
      have hlenp : (ps page).length = limit := hlen page le_rfl (by omega)
      have hne : (ps page).isEmpty = false := by
        cases hps : ps page with
        | nil => rw [hps] at hlenp; simp at hlenp; omega
        | cons a l => rfl
      have hnshort : ¬ (ps page).length < limit := by omega
      have hrec := ih m (page + 1) (processed + 1)
        (fun j h1 h2 => hok j (by omega) (by omega))
        (fun j h1 h2 => hlen j (by omega) (by omega))
        (by rw [show page + 1 + k = page + (k + 1) from by omega]; exact herr)
        (by omega)
      simp [lfmLoop, capReached, hokp, hne, hnshort, lfmMappedPages, hrec]

/-- When the Spotify capability returns `n` non-empty pages with `next`
cursors at offsets `j*limit, (j+1)*limit, ...` and raises at offset
`(j+n)*limit`, the loop returns exactly the filter-mapped records of those
`n` pages. -/
theorem spLoop_error_partial {rho tau : Type}
    (fetch : Nat -> Except Unit (Option (SpotifyPage rho)))
    (mapRec : rho -> Option tau) (limit : Nat) (send : Bool)
    (items : Nat -> List rho) :
    forall n fuel j total,
      (forall m, m < n ->
        fetch ((j + m) * limit) = Except.ok (some (SpotifyPage.mk (items (j + m)) true))) ->
      (forall m, m < n -> (items (j + m)).isEmpty = false) ->
      fetch ((j + n) * limit) = Except.error () ->
      n < fuel ->
      (spLoop fetch mapRec limit none send fuel (j * limit) total).1 =
        spMappedPages items mapRec j n := by
  intro n
  induction n with
  | zero =>
    intro fuel j total hok hne herr hfuel
    cases fuel with
    | zero => omega
    | succ m =>
      have h0 : fetch (j * limit) = Except.error () := by simpa using herr
      simp [spLoop, h0, spMappedPages]
  | succ k ih =>
    intro fuel j total hok hne herr hfuel
    cases fuel with
    | zero => omega
    | succ m =>
      have hokp : fetch (j * limit) = Except.ok (some (SpotifyPage.mk (items j) true)) := by
        have h := hok 0 (by omega)
        simpa using h
      have hnep : (items j).isEmpty = false := by
        have h := hne 0 (by omega)
        simpa using h
      have hrec := ih m (j + 1) (total + ((items j).filterMap mapRec).length)
        (fun m2 hm2 => by
          have h := hok (m2 + 1) (by omega)
          rw [show j + 1 + m2 = j + (m2 + 1) from by omega]
          exact h)
        (fun m2 hm2 => by
          have h := hne (m2 + 1) (by omega)
          rw [show j + 1 + m2 = j + (m2 + 1) from by omega]
          exact h)
        (by rw [show j + 1 + k = j + (k + 1) from by omega]; exact herr)
        (by omega)
      have hoff : j * limit + limit = (j + 1) * limit := by ring
      simp [spLoop, hokp, hnep, capReached, spMappedPages, hoff, hrec]

/-- C2: for every page-fetch capability that raises on page k, both
fetchers return exactly the mapped records accumulated from pages 1..k-1,
and no exception escapes (the embedded loops are total functions whose
error branch returns the partial accumulation instead of propagating).
Last.fm pages are numbered from 1; the Spotify page numbered m (1-based)
lives at offset (m-1)*limit. -/
theorem C2_thm (rho tau rho2 tau2 : Type)
    (fetch : Nat -> Except Unit (List rho)) (mapRec : rho -> tau)
    (limit : Nat) (send : Bool) (fuel : Nat) (ps : Nat -> List rho) (kL : Nat)
    (fetch2 : Nat -> Except Unit (Option (SpotifyPage rho2))) (mapRec2 : rho2 -> Option tau2)
    (limit2 : Nat) (send2 : Bool) (fuel2 : Nat) (items : Nat -> List rho2) (kS : Nat)
    (hlim : 0 < limit)
    (hkL : 1 <= kL) (hfuelL : kL <= fuel)
    (hokL : forall j, 1 <= j -> j < kL -> fetch j = Except.ok (ps j))
    (hlenL : forall j, 1 <= j -> j < kL -> (ps j).length = limit)
    (herrL : fetch kL = Except.error ())
    (hkS : 1 <= kS) (hfuelS : kS <= fuel2)
    (hokS : forall m, m + 1 < kS ->
      fetch2 (m * limit2) = Except.ok (some (SpotifyPage.mk (items m) true)))
    (hneS : forall m, m + 1 < kS -> (items m).isEmpty = false)
    (herrS : fetch2 ((kS - 1) * limit2) = Except.error ()) :
    (LastFMClient.get_recent_tracks true fetch mapRec limit none send fuel).1 =
      lfmMappedPages ps mapRec 1 (kL - 1) ∧
    (SpotifyClient.get_saved_tracks true fetch2 mapRec2 limit2 none send2 fuel2).1 =
      spMappedPages items mapRec2 0 (kS - 1) := by
  constructor
  . have h := lfmLoop_error_partial fetch mapRec limit send hlim ps (kL - 1) fuel 1 0
      (fun j h1 h2 => hokL j h1 (by omega))
      (fun j h1 h2 => hlenL j h1 (by omega))
      (by rw [show 1 + (kL - 1) = kL from by omega]; exact herrL)
      (by omega)
    simpa [LastFMClient.get_recent_tracks] using h
  . have h := spLoop_error_partial fetch2 mapRec2 limit2 send2 items (kS - 1) fuel2 0 0
      (fun m hm => by simpa using hokS m (by omega))
      (fun m hm => by simpa using hneS m (by omega))
      (by simpa using herrS)
      (by omega)
    simpa [SpotifyClient.get_saved_tracks] using h

/-- C2 witness: one full page then an error on page 2 returns exactly the
first page's mapped records, for both clients. -/
theorem C2_witness :
    (LastFMClient.get_recent_tracks true
      (fun j => if j = 1 then Except.ok [(0 : Nat), 1] else Except.error ())
      (fun x => x) 2 none true 3).1 =
      lfmMappedPages (fun _ => [(0 : Nat), 1]) (fun x => x) 1 1 ∧
    (SpotifyClient.get_saved_tracks true
      (fun off => if off = 0 then Except.ok (some (SpotifyPage.mk [(5 : Nat)] true))
                  else Except.error ())
      (fun x => some x) 3 none true 3).1 =
      spMappedPages (fun _ => [(5 : Nat)]) (fun x => some x) 0 1 :=
  C2_thm Nat Nat Nat Nat
    (fun j => if j = 1 then Except.ok [0, 1] else Except.error ())
    (fun x => x) 2 true 3 (fun _ => [0, 1]) 2
    (fun off => if off = 0 then Except.ok (some (SpotifyPage.mk [5] true))
                else Except.error ())
    (fun x => some x) 3 true 3 (fun _ => [5]) 2
    (by decide) (by decide) (by decide)
    (fun j h1 h2 => by
      have hj : j = 1 := by omega
      subst hj
      rfl)
    (fun j h1 h2 => by
      have hj : j = 1 := by omega
      subst hj
      rfl)
    (by rfl)
    (by decide) (by decide)
    (fun m hm => by
      have hm0 : m = 0 := by omega
      subst hm0
      rfl)
    (fun m hm => by
      have hm0 : m = 0 := by omega
      subst hm0
      rfl)
    (by rfl)

/-- C3 (amended): when no collector destination is configured (absent or
empty URL), every call to `send_to_mcp` returns false with zero POST
attempts - including with an empty record list, because the URL check runs
before the empty-data check; with a destination configured, an empty record
list returns true with zero POST attempts; and with non-empty records,
every non-success delivery outcome returns false after exactly one POST
attempt (no retry), with no exception crossing the boundary (the embedding
is total). -/
theorem C3_amended (rho : Type) (endpoint : String) (data : List rho)
    (encode : List rho -> Except Unit String)
    (post : String -> String -> DeliveryOutcome) :
    send_to_mcp endpoint data none encode post = (false, 0) ∧
    send_to_mcp endpoint data (some "") encode post = (false, 0) ∧
    (forall url, url.isEmpty = false -> data = [] ->
      send_to_mcp endpoint data (some url) encode post = (true, 0)) ∧
    (forall url payload, url.isEmpty = false -> data.isEmpty = false ->
      encode data = Except.ok payload ->
      post (joinUrl url endpoint) payload ≠ DeliveryOutcome.success ->
      send_to_mcp endpoint data (some url) encode post = (false, 1)) := by
  refine ⟨rfl, rfl, ?_, ?_⟩
  . intro url hurl hdata
    subst hdata
    simp [send_to_mcp, hurl]
  . intro url payload hurl hdata henc hpost
    cases hp : post (joinUrl url endpoint) payload with
    | success => exact absurd hp hpost
    | connectionError => simp [send_to_mcp, hurl, hdata, henc, hp]
    | timeout => simp [send_to_mcp, hurl, hdata, henc, hp]
    | httpError s b => simp [send_to_mcp, hurl, hdata, henc, hp]
    | requestError => simp [send_to_mcp, hurl, hdata, henc, hp]
    | unexpected => simp [send_to_mcp, hurl, hdata, henc, hp]

/-- C3 counterexample: with no destination configured and an empty record
list, `send_to_mcp` returns false, not true as the claim states - the
falsy-URL early return fires before the empty-data early return. -/
theorem C3_counterexample :
    ¬ ((send_to_mcp "/submit/spotify/tracks" ([] : List Nat) none
        (fun _ => Except.ok "payload") (fun _ _ => DeliveryOutcome.success)).1 = true) := by
  decide

/-- C3 witness: the amended statement at a concrete call - a timeout
outcome on non-empty data yields false after exactly one POST attempt. -/
theorem C3_witness :
    send_to_mcp "/submit/lastfm/scrobbles" [(1 : Nat), 2, 3] (some "http://collector")
      (fun _ => Except.ok "payload") (fun _ _ => DeliveryOutcome.timeout) = (false, 1) :=
  (C3_amended Nat "/submit/lastfm/scrobbles" [1, 2, 3]
      (fun _ => Except.ok "payload") (fun _ _ => DeliveryOutcome.timeout)).2.2.2
    "http://collector" "payload" (by decide) (by decide) rfl (by decide)

/-- C4 (amended): the tool wrappers in server.py do not convert failures
into empty results.  `get_spotify_user_top_tracks` raises `ValueError` for
an out-of-enum `time_range` and otherwise returns the wrapped facade
call's outcome unchanged, so a facade exception propagates out of the tool
function; `get_lastfm_recent_tracks` likewise returns the facade outcome
unchanged (with the page size clamped).  Degradation to empty results
happens inside the facade methods, not at the tool layer. -/
theorem C4_amended (rho sigma : Type)
    (facade : String -> Nat -> Except ToolError (List rho))
    (facadeL : Nat -> Option Nat -> Option Nat -> Option Nat -> Except ToolError (List sigma))
    (time_range : String) (limit lp : Nat) (mp tf tt : Option Nat) :
    (time_range ∈ validTimeRanges ->
      Server.get_spotify_user_top_tracks facade time_range limit = facade time_range limit) ∧
    (time_range ∉ validTimeRanges ->
      Server.get_spotify_user_top_tracks facade time_range limit =
        Except.error ToolError.valueError) ∧
    Server.get_lastfm_recent_tracks facadeL lp mp tf tt =
      facadeL (min lp 200) mp tf tt := by
  refine ⟨?_, ?_, rfl⟩
  . intro hmem
    simp [Server.get_spotify_user_top_tracks, hmem]
  . intro hmem
    simp [Server.get_spotify_user_top_tracks, hmem]

/-- C4 counterexample: an out-of-enum time range makes the top-tracks tool
raise `ValueError` even though the wrapped facade would have succeeded
with an empty list - the operation does not return an empty sequence on
internal validation failure, and the error leaves the tool function. -/
theorem C4_counterexample :
    Server.get_spotify_user_top_tracks (fun _ _ => Except.ok ([] : List Nat))
        "bad_range" 50 = Except.error ToolError.valueError ∧
    Server.get_spotify_user_top_tracks (fun _ _ => Except.ok ([] : List Nat))
        "bad_range" 50 ≠ Except.ok [] := by
  have hmem : "bad_range" ∉ validTimeRanges := by simp [validTimeRanges]
  constructor
  . simp [Server.get_spotify_user_top_tracks, hmem]
  . simp [Server.get_spotify_user_top_tracks, hmem]

/-- C4 witness: with a valid time range, a facade failure propagates out of
the tool unchanged instead of becoming an empty list. -/
theorem C4_witness :
    Server.get_spotify_user_top_tracks
      (fun _ _ => Except.error (α := List Nat) ToolError.facadeError)
      "short_term" 5 = Except.error ToolError.facadeError :=
  (C4_amended Nat Nat (fun _ _ => Except.error ToolError.facadeError)
      (fun _ _ _ _ => Except.ok []) "short_term" 5 0 none none none).1 (by decide)

/-- C8 (amended): server.py performs no delimited-string coercion -
`get_spotify_track_audio_features` forwards its `track_ids` argument to
the facade exactly as received, for every input shape. -/
theorem C8_amended (rho : Type) (facade : StrOrList -> Except ToolError (List rho))
    (track_ids : StrOrList) :
    Server.get_spotify_track_audio_features facade track_ids = facade track_ids ∧
    Server.get_spotify_track_audio_features (fun x => Except.ok [x]) track_ids =
      Except.ok [track_ids] :=
  ⟨rfl, rfl⟩

/-- C8 counterexample: a recording facade receives the raw delimited
string, not the id sequence the claim says the Tool Registry produces
before the facade call. -/
theorem C8_counterexample :
    Server.get_spotify_track_audio_features (fun x => Except.ok [x])
        (StrOrList.str "id1,id2 id3") = Except.ok [StrOrList.str "id1,id2 id3"] ∧
    Server.get_spotify_track_audio_features (fun x => Except.ok [x])
        (StrOrList.str "id1,id2 id3") ≠
      Except.ok [StrOrList.list ["id1", "id2", "id3"]] := by
  constructor
  . rfl
  . simp [Server.get_spotify_track_audio_features]

/-- C10: the page size the `get_lastfm_recent_tracks` tool passes to the
facade is `min(limit_per_page, 200)`: values up to 200 are forwarded
unchanged, values above 200 are clamped to exactly 200. -/
theorem C10_thm (sigma : Type)
    (facadeL : Nat -> Option Nat -> Option Nat -> Option Nat -> Except ToolError (List sigma))
    (lp : Nat) (mp tf tt : Option Nat) :
    (lp <= 200 ->
      Server.get_lastfm_recent_tracks facadeL lp mp tf tt = facadeL lp mp tf tt) ∧
    (200 < lp ->
      Server.get_lastfm_recent_tracks facadeL lp mp tf tt = facadeL 200 mp tf tt) := by
  constructor
  . intro hle
    simp [Server.get_lastfm_recent_tracks, Nat.min_eq_left hle]
  . intro hgt
    simp [Server.get_lastfm_recent_tracks, Nat.min_eq_right (le_of_lt hgt)]

/-- C10 witness: a request for 300 items per page reaches the facade
clamped to 200, and one for 150 reaches it unchanged. -/
theorem C10_witness :
    Server.get_lastfm_recent_tracks (fun l _ _ _ => Except.ok [l]) 300 none none none =
      Except.ok [200] ∧
    Server.get_lastfm_recent_tracks (fun l _ _ _ => Except.ok [l]) 150 none none none =
      Except.ok [150] :=
  ⟨(C10_thm Nat (fun l _ _ _ => Except.ok [l]) 300 none none none).2 (by decide),
   (C10_thm Nat (fun l _ _ _ => Except.ok [l]) 150 none none none).1 (by decide)⟩

/-- C5 (amended): in `LastFMClient.get_recent_tracks`, whenever the loop
fetches a non-empty page shorter than `page_size`, it returns exactly that
page's mapped records from that state and issues no further request (one
request total from that state).  In `SpotifyClient.get_saved_tracks`
stopping is decided by the `next` cursor, not by page length: a page whose
response has no `next` cursor is returned with no further request
regardless of its length, while - as the counterexample shows - a short
page carrying a `next` cursor does not stop the fetch. -/
theorem C5_amended (rho tau rho2 tau2 : Type)
    (fetch : Nat -> Except Unit (List rho)) (mapRec : rho -> tau)
    (limit : Nat) (maxPages : Option Nat) (send : Bool) (fuel page processed : Nat)
    (res : List rho)
    (fetch2 : Nat -> Except Unit (Option (SpotifyPage rho2))) (mapRec2 : rho2 -> Option tau2)
    (limit2 : Nat) (maxTracks : Option Nat) (send2 : Bool) (fuel2 off total : Nat)
    (pg : SpotifyPage rho2)
    (hcap : capReached maxPages processed = false)
    (hf : fetch page = Except.ok res)
    (hne : res.isEmpty = false)
    (hshort : res.length < limit)
    (hf2 : fetch2 off = Except.ok (some pg))
    (hne2 : pg.items.isEmpty = false)
    (hnext : pg.next = false) :
    ((lfmLoop fetch mapRec limit maxPages send (fuel + 1) page processed).1 = res.map mapRec ∧
     countRequests (lfmLoop fetch mapRec limit maxPages send (fuel + 1) page processed).2 = 1) ∧
    ((spLoop fetch2 mapRec2 limit2 maxTracks send2 (fuel2 + 1) off total).1 =
        pg.items.filterMap mapRec2 ∧
     countRequests (spLoop fetch2 mapRec2 limit2 maxTracks send2 (fuel2 + 1) off total).2 = 1) := by
  constructor
  . constructor
    . simp [lfmLoop, hcap, hf, hne, hshort]
    . simp [lfmLoop, hcap, hf, hne, hshort, countRequests_cons, countRequests_fwdIf,
        FetchEvent.isRequest]
  . constructor
    . simp [spLoop, hf2, hne2, hnext]
    . simp [spLoop, hf2, hne2, hnext, countRequests_cons, countRequests_fwdIf,
        FetchEvent.isRequest]

/-- C5 counterexample: a Spotify page shorter than `page_size` (1 item,
page size 2) whose response still carries a `next` cursor does not stop
the fetch - further page requests are issued, refuting the claim that a
short page always ends the pagination. -/
theorem C5_counterexample :
    ¬ (countRequests ((SpotifyClient.get_saved_tracks true
        (fun _ => Except.ok (some (SpotifyPage.mk [(9 : Nat)] true)))
        (fun x => some x) 2 none true 3).2) <= 1) := by
  decide

/-- C5 witness: a short Last.fm page and a cursor-less Spotify page each
end their fetch after exactly one request, returning that page's records. -/
theorem C5_witness :
    ((lfmLoop (fun _ => Except.ok [(3 : Nat)]) (fun x => x) 2 none true 1 1 0).1 = [3] ∧
     countRequests (lfmLoop (fun _ => Except.ok [(3 : Nat)]) (fun x => x) 2 none true 1 1 0).2 = 1) ∧
    ((spLoop (fun _ => Except.ok (some (SpotifyPage.mk [(4 : Nat)] false)))
        (fun x => some x) 5 none true 1 0 0).1 = [4] ∧
     countRequests ((spLoop (fun _ => Except.ok (some (SpotifyPage.mk [(4 : Nat)] false)))
        (fun x => some x) 5 none true 1 0 0).2) = 1) :=
  C5_amended Nat Nat Nat Nat (fun _ => Except.ok [3]) (fun x => x) 2 none true 0 1 0 [3]
    (fun _ => Except.ok (some (SpotifyPage.mk [4] false))) (fun x => some x) 5 none true 0 0 0
    (SpotifyPage.mk [4] false)
    rfl rfl rfl (by decide) rfl rfl rfl

theorem chunksOf100_nil {ι : Type} : chunksOf100 ([] : List ι) = [] := by
  unfold chunksOf100
  rfl

theorem chunksOf100_ne {ι : Type} (ids : List ι) (h : ids.isEmpty = false) :
    chunksOf100 ids = ids.take 100 :: chunksOf100 (ids.drop 100) := by
  conv_lhs => rw [chunksOf100]
  simp [h]

theorem audioFeaturesLoop_nil {ι φ : Type} (api : List ι -> Except Unit (List (Option φ)))
    (send : Bool) (i : Nat) : audioFeaturesLoop api send i [] = ([], []) := by
  unfold audioFeaturesLoop
  rfl

theorem audioFeaturesLoop_ne {ι φ : Type} (api : List ι -> Except Unit (List (Option φ)))
    (send : Bool) (i : Nat) (ids : List ι) (h : ids.isEmpty = false) :
    audioFeaturesLoop api send i ids =
      match api (ids.take 100) with
      | Except.ok features =>
        ((features.filterMap id) ++ (audioFeaturesLoop api send (i + 100) (ids.drop 100)).1,
         FetchEvent.request i ::
           ((if send && !(features.filterMap id).isEmpty
             then [FetchEvent.forward "/submit/spotify/features" (features.filterMap id)]
             else []) ++ (audioFeaturesLoop api send (i + 100) (ids.drop 100)).2))
      | Except.error _ =>
        ((audioFeaturesLoop api send (i + 100) (ids.drop 100)).1,
         FetchEvent.request i :: (audioFeaturesLoop api send (i + 100) (ids.drop 100)).2) := by
  conv_lhs => rw [audioFeaturesLoop]
  simp [h]

/-- The chunk loop returns the concatenation, in chunk order, of each
chunk's non-null results (a raised chunk contributing nothing), and issues
exactly one vendor call per chunk. -/
theorem afl_characterization {ι φ : Type} (api : List ι -> Except Unit (List (Option φ)))
    (send : Bool) :
    forall n (ids : List ι) (i : Nat), ids.length <= n ->
      (audioFeaturesLoop api send i ids).1 = ((chunksOf100 ids).map (chunkResult api)).flatten ∧
      countRequests (audioFeaturesLoop api send i ids).2 = (chunksOf100 ids).length := by
  intro n
  induction n with
  | zero =>
    intro ids i hlen
    have hnil : ids = [] := by
      cases ids with
      | nil => rfl
      | cons a l => simp at hlen
    subst hnil
    simp [audioFeaturesLoop_nil, chunksOf100_nil, countRequests]
  | succ k ih =>
    intro ids i hlen
    by_cases hemp : ids.isEmpty = true
    . have hnil : ids = [] := by
        cases ids with
        | nil => rfl
        | cons a l => simp at hemp
      subst hnil
      simp [audioFeaturesLoop_nil, chunksOf100_nil, countRequests]
    . have hemp2 : ids.isEmpty = false := by
        cases h2 : ids.isEmpty with
        | false => rfl
        | true => exact absurd h2 hemp
      have hpos : 0 < ids.length := by
        cases ids with
        | nil => simp at hemp2
        | cons a l => simp
      have hlt : (ids.drop 100).length <= k := by
        simp only [List.length_drop]
        omega
      have hrec := ih (ids.drop 100) (i + 100) hlt
      rw [audioFeaturesLoop_ne api send i ids hemp2, chunksOf100_ne ids hemp2]
      cases ha : api (ids.take 100) with
      | ok features =>
        simp only [ha]
        constructor
        . simp [chunkResult, ha, hrec.1]
        . simp [countRequests_cons, countRequests_append, countRequests_fwdIf,
            FetchEvent.isRequest, hrec.2]
      | error e =>
        simp only [ha]
        constructor
        . simp [chunkResult, ha, hrec.1]
        . simp [countRequests_cons, FetchEvent.isRequest, hrec.2]

/-- Every chunk produced by the 100-wise split has at most 100 ids. -/
theorem chunksOf100_le {ι : Type} :
    forall n (ids : List ι), ids.length <= n ->
      forall c, c ∈ chunksOf100 ids -> c.length <= 100 := by
  intro n
  induction n with
  | zero =>
    intro ids hlen c hc
    have hnil : ids = [] := by
      cases ids with
      | nil => rfl
      | cons a l => simp at hlen
    subst hnil
    rw [chunksOf100_nil] at hc
    simp at hc
  | succ k ih =>
    intro ids hlen c hc
    by_cases hemp : ids.isEmpty = true
    . have hnil : ids = [] := by
        cases ids with
        | nil => rfl
        | cons a l => simp at hemp
      subst hnil
      rw [chunksOf100_nil] at hc
      simp at hc
    . have hemp2 : ids.isEmpty = false := by
        cases h2 : ids.isEmpty with
        | false => rfl
        | true => exact absurd h2 hemp
      have hpos : 0 < ids.length := by
        cases ids with
        | nil => simp at hemp2
        | cons a l => simp
      rw [chunksOf100_ne ids hemp2] at hc
      rcases List.mem_cons.mp hc with h1 | h1
      . subst h1
        simp [List.length_take]
      . exact ih (ids.drop 100) (by simp only [List.length_drop]; omega) c h1

/-- A 150-id input splits into exactly two chunks. -/
theorem chunksOf100_150 {ι : Type} (ids : List ι) (h : ids.length = 150) :
    (chunksOf100 ids).length = 2 := by
  have h1 : ids.isEmpty = false := by
    cases ids with
    | nil => simp at h
    | cons a l => rfl
  rw [chunksOf100_ne ids h1]
  have hd1 : (ids.drop 100).length = 50 := by
    simp only [List.length_drop]
    omega
  have h2 : (ids.drop 100).isEmpty = false := by
    cases hd : ids.drop 100 with
    | nil => rw [hd] at hd1; simp at hd1
    | cons a l => rfl
  rw [chunksOf100_ne _ h2]
  have h3 : ((ids.drop 100).drop 100) = [] := by
    have hlen0 : ((ids.drop 100).drop 100).length = 0 := by
      simp only [List.length_drop]
      omega
    exact List.eq_nil_of_length_eq_zero hlen0
  rw [h3, chunksOf100_nil]
  rfl

/-- C6: `SpotifyClient.get_audio_features` splits its input into chunks of
at most 100 ids, issues exactly one vendor call per chunk (so 150 ids give
exactly 2 calls), and returns the concatenation in chunk order of each
chunk's non-null feature results - a chunk whose vendor call raises is
skipped while all remaining chunks are still processed, which is exactly
what the per-chunk `chunkResult` in the returned concatenation says. -/
theorem C6_thm (ι φ : Type) (api : List ι -> Except Unit (List (Option φ)))
    (send : Bool) (ids : List ι) :
    SpotifyClient.get_audio_features true api send ids =
      some (((chunksOf100 ids).map (chunkResult api)).flatten,
            (audioFeaturesLoop api send 0 ids).2) ∧
    countRequests (audioFeaturesLoop api send 0 ids).2 = (chunksOf100 ids).length ∧
    (forall c, c ∈ chunksOf100 ids -> c.length <= 100) ∧
    (ids.length = 150 -> countRequests (audioFeaturesLoop api send 0 ids).2 = 2) := by
  have hchar := afl_characterization api send ids.length ids 0 le_rfl
  refine ⟨?_, hchar.2, chunksOf100_le ids.length ids le_rfl, ?_⟩
  . unfold SpotifyClient.get_audio_features
    by_cases hemp : ids.isEmpty = true
    . have hnil : ids = [] := by
        cases ids with
        | nil => rfl
        | cons a l => simp at hemp
      subst hnil
      simp [audioFeaturesLoop_nil, chunksOf100_nil]
    . simp only [hemp, Bool.false_eq_true, if_false, if_true]
      exact congrArg some (Prod.ext hchar.1 rfl)
  . intro h150
    rw [hchar.2, chunksOf100_150 ids h150]

/-- C6 witness: 150 ids produce exactly two vendor calls. -/
theorem C6_witness :
    countRequests ((audioFeaturesLoop (fun c => Except.ok (c.map (fun x => some (x : Nat))))
      true 0 (List.replicate 150 (0 : Nat))).2) = 2 :=
  (C6_thm Nat Nat (fun c => Except.ok (c.map (fun x => some x))) true
    (List.replicate 150 0)).2.2.2 (by simp)

theorem ppb_nil {τ : Type} (good : Nat -> String -> List τ -> Prop) (bad : Nat -> Prop) :
    perPageBatches good bad [] := trivial

theorem ppb_single {τ : Type} (good : Nat -> String -> List τ -> Prop) (bad : Nat -> Prop)
    (p : Nat) (h : bad p) : perPageBatches good bad [FetchEvent.request p] := h

theorem ppb_reqFwd {τ : Type} (good : Nat -> String -> List τ -> Prop) (bad : Nat -> Prop)
    (p : Nat) (ep : String) (b : List τ) (rest : List (FetchEvent τ))
    (h1 : good p ep b) (h2 : perPageBatches good bad rest) :
    perPageBatches good bad (FetchEvent.request p :: FetchEvent.forward ep b :: rest) :=
  ⟨h1, h2⟩

theorem ppb_sleep {τ : Type} (good : Nat -> String -> List τ -> Prop) (bad : Nat -> Prop)
    (ms : Nat) (rest : List (FetchEvent τ)) (h : perPageBatches good bad rest) :
    perPageBatches good bad (FetchEvent.sleep ms :: rest) := h

theorem ppb_reqReq {τ : Type} (good : Nat -> String -> List τ -> Prop) (bad : Nat -> Prop)
    (p q : Nat) (rest : List (FetchEvent τ)) (h1 : bad p)
    (h2 : perPageBatches good bad (FetchEvent.request q :: rest)) :
    perPageBatches good bad (FetchEvent.request p :: FetchEvent.request q :: rest) :=
  ⟨h1, h2⟩

/-- Every Last.fm fetch trace with forwarding enabled obeys the per-page
forwarding discipline. -/
theorem lfmLoop_perPage {rho tau : Type} (fetch : Nat -> Except Unit (List rho))
    (mapRec : rho -> tau) (limit : Nat) (maxPages : Option Nat) :
    forall fuel page processed,
      perPageBatches (lfmGood fetch mapRec) (lfmBad fetch)
        (lfmLoop fetch mapRec limit maxPages true fuel page processed).2 := by
  intro fuel
  induction fuel with
  | zero =>
    intro page processed
    exact ppb_nil _ _
  | succ n ih =>
    intro page processed
    by_cases hcap : capReached maxPages processed = true
    . simp only [lfmLoop, hcap, if_true]
      exact ppb_nil _ _
    . have hcap2 : capReached maxPages processed = false := by
        cases h2 : capReached maxPages processed with
        | false => rfl
        | true => exact absurd h2 hcap
      cases hf : fetch page with
      | error e =>
        simp only [lfmLoop, hcap2, Bool.false_eq_true, if_false, hf]
        exact ppb_single _ _ page (Or.inl (by cases e; exact hf))
      | ok results =>
        by_cases hempty : results.isEmpty = true
        . have hrnil : results = [] := by
            cases results with
            | nil => rfl
            | cons a l => simp at hempty
          simp only [lfmLoop, hcap2, Bool.false_eq_true, if_false, hf, hempty, if_true]
          exact ppb_single _ _ page (Or.inr (hrnil ▸ hf))
        . have hempty2 : results.isEmpty = false := by
            cases h2 : results.isEmpty with
            | false => rfl
            | true => exact absurd h2 hempty
          have hptne : (results.map mapRec).isEmpty = false := by
            rw [isEmpty_map_eq]
            exact hempty2
          have hgood : lfmGood fetch mapRec page "/submit/lastfm/scrobbles"
              (results.map mapRec) := ⟨rfl, results, hf, hempty2, rfl⟩
          by_cases hshort : results.length < limit
          . simp only [lfmLoop, hcap2, Bool.false_eq_true, if_false, hf, hempty2, hshort,
              if_true, hptne, Bool.not_false, Bool.and_true]
            exact ppb_reqFwd _ _ page _ _ _ hgood (ppb_nil _ _)
          . simp only [lfmLoop, hcap2, Bool.false_eq_true, if_false, hf, hempty2, hshort,
              hptne, Bool.not_false, Bool.and_true, List.cons_append, List.nil_append]
            exact ppb_reqFwd _ _ page _ _ _ hgood
              (ppb_sleep _ _ _ _ (ih (page + 1) (processed + 1)))

/-- A Spotify fetch trace with positive fuel always starts with the
request at the current offset. -/
theorem spLoop_head {rho tau : Type} (fetch : Nat -> Except Unit (Option (SpotifyPage rho)))
    (mapRec : rho -> Option tau) (limit : Nat) (maxTracks : Option Nat) (send : Bool) :
    forall n off total,
      ((spLoop fetch mapRec limit maxTracks send (n + 1) off total).2).head? =
        some (FetchEvent.request off) := by
  intro n off total
  cases hf : fetch off with
  | error e => simp [spLoop, hf]
  | ok res =>
    cases res with
    | none => simp [spLoop, hf]
    | some pg =>
      by_cases hemp : pg.items.isEmpty = true
      . simp [spLoop, hf, hemp]
      . by_cases hnext : pg.next = true
        . by_cases hcapv :
            capReached maxTracks (total + (pg.items.filterMap mapRec).length) = true
          . simp [spLoop, hf, hemp, hnext, hcapv]
          . simp [spLoop, hf, hemp, hnext, hcapv]
        . simp [spLoop, hf, hemp, hnext]

/-- Every Spotify fetch trace with forwarding enabled obeys the per-page
forwarding discipline. -/
theorem spLoop_perPage {rho tau : Type} (fetch : Nat -> Except Unit (Option (SpotifyPage rho)))
    (mapRec : rho -> Option tau) (limit : Nat) (maxTracks : Option Nat) :
    forall fuel off total,
      perPageBatches (spGood fetch mapRec) (spBad fetch mapRec)
        (spLoop fetch mapRec limit maxTracks true fuel off total).2 := by
  intro fuel
  induction fuel with
  | zero =>
    intro off total
    exact ppb_nil _ _
  | succ n ih =>
    intro off total
    cases hf : fetch off with
    | error e =>
      simp only [spLoop, hf]
      exact ppb_single _ _ off (Or.inl (by cases e; exact hf))
    | ok res =>
      cases res with
      | none =>
        simp only [spLoop, hf]
        exact ppb_single _ _ off (Or.inr (Or.inl hf))
      | some pg =>
        by_cases hemp : pg.items.isEmpty = true
        . have hitems : pg.items = [] := by
            cases h2 : pg.items with
            | nil => rfl
            | cons a l => rw [h2] at hemp; simp at hemp
          have hbad : spBad fetch mapRec off :=
            Or.inr (Or.inr ⟨pg, hf, by simp [hitems]⟩)
          simp only [spLoop, hf, hemp, if_true]
          exact ppb_single _ _ off hbad
        . have hemp2 : pg.items.isEmpty = false := by
            cases h2 : pg.items.isEmpty with
            | false => rfl
            | true => exact absurd h2 hemp
          by_cases hbat : (pg.items.filterMap mapRec).isEmpty = true
          . have hbad : spBad fetch mapRec off := Or.inr (Or.inr ⟨pg, hf, hbat⟩)
            by_cases hnext : pg.next = true
            . by_cases hcapv :
                capReached maxTracks (total + (pg.items.filterMap mapRec).length) = true
              . simp only [spLoop, hf, hemp2, Bool.false_eq_true, if_false, hnext,
                  hcapv, if_true, hbat, Bool.not_true, Bool.and_false]
                exact ppb_single _ _ off hbad
              . have hcapv2 :
                    capReached maxTracks (total + (pg.items.filterMap mapRec).length) = false := by
                  cases h2 : capReached maxTracks (total + (pg.items.filterMap mapRec).length) with
                  | false => rfl
                  | true => exact absurd h2 hcapv
                simp only [spLoop, hf, hemp2, Bool.false_eq_true, if_false, hnext,
                  hcapv2, if_true, hbat, Bool.not_true, Bool.and_false, List.nil_append]
                cases n with
                | zero =>
                  exact ppb_single _ _ off hbad
                | succ m =>
                  have hhead := spLoop_head fetch mapRec limit maxTracks true m (off + limit)
                    (total + (pg.items.filterMap mapRec).length)
                  have ihm := ih (off + limit) (total + (pg.items.filterMap mapRec).length)
                  cases htr : (spLoop fetch mapRec limit maxTracks true (m + 1) (off + limit)
                      (total + (pg.items.filterMap mapRec).length)).2 with
                  | nil =>
                    exact ppb_single _ _ off hbad
                  | cons hd tl =>
                    rw [htr] at hhead ihm
                    simp only [List.head?_cons, Option.some.injEq] at hhead
                    subst hhead
                    exact ppb_reqReq _ _ off (off + limit) tl hbad ihm
            . have hnext2 : pg.next = false := by
                cases h2 : pg.next with
                | false => rfl
                | true => exact absurd h2 hnext
              simp only [spLoop, hf, hemp2, Bool.false_eq_true, if_false, hnext2,
                hbat, Bool.not_true, Bool.and_false]
              exact ppb_single _ _ off hbad
          . have hbat2 : (pg.items.filterMap mapRec).isEmpty = false := by
              cases h2 : (pg.items.filterMap mapRec).isEmpty with
              | false => rfl
              | true => exact absurd h2 hbat
            have hgood : spGood fetch mapRec off "/submit/spotify/tracks"
                (pg.items.filterMap mapRec) := ⟨rfl, pg, hf, rfl, hbat2⟩
            by_cases hnext : pg.next = true
            . by_cases hcapv :
                capReached maxTracks (total + (pg.items.filterMap mapRec).length) = true
              . simp only [spLoop, hf, hemp2, Bool.false_eq_true, if_false, hnext,
                  hcapv, if_true, hbat2, Bool.not_false, Bool.and_true]
                exact ppb_reqFwd _ _ off _ _ _ hgood (ppb_nil _ _)
              . have hcapv2 :
                    capReached maxTracks (total + (pg.items.filterMap mapRec).length) = false := by
                  cases h2 : capReached maxTracks (total + (pg.items.filterMap mapRec).length) with
                  | false => rfl
                  | true => exact absurd h2 hcapv
                simp only [spLoop, hf, hemp2, Bool.false_eq_true, if_false, hnext,
                  hcapv2, if_true, hbat2, Bool.not_false, Bool.and_true,
                  List.cons_append, List.nil_append]
                exact ppb_reqFwd _ _ off _ _ _ hgood
                  (ih (off + limit) (total + (pg.items.filterMap mapRec).length))
            . have hnext2 : pg.next = false := by
                cases h2 : pg.next with
                | false => rfl
                | true => exact absurd h2 hnext
              simp only [spLoop, hf, hemp2, Bool.false_eq_true, if_false, hnext2,
                hbat2, Bool.not_false, Bool.and_true]
              exact ppb_reqFwd _ _ off _ _ _ hgood (ppb_nil _ _)

/-- C7: with forwarding enabled, every forward call in either fetcher's
trace carries exactly the mapped records of the single page just fetched:
each forward stands immediately after its page's request (so it is issued
before the next page is requested), its batch equals that one page's
mapped records - never records accumulated across pages - and every
request without a forward fetched a page with nothing to forward. -/
theorem C7_thm (rho tau rho2 tau2 : Type)
    (fetch : Nat -> Except Unit (List rho)) (mapRec : rho -> tau)
    (limit : Nat) (maxPages : Option Nat) (fuel : Nat) (userOk : Bool)
    (fetch2 : Nat -> Except Unit (Option (SpotifyPage rho2))) (mapRec2 : rho2 -> Option tau2)
    (limit2 : Nat) (maxTracks : Option Nat) (fuel2 : Nat) (spOk : Bool) :
    perPageBatches (lfmGood fetch mapRec) (lfmBad fetch)
      (LastFMClient.get_recent_tracks userOk fetch mapRec limit maxPages true fuel).2 ∧
    perPageBatches (spGood fetch2 mapRec2) (spBad fetch2 mapRec2)
      (SpotifyClient.get_saved_tracks spOk fetch2 mapRec2 limit2 maxTracks true fuel2).2 := by
  constructor
  . cases userOk with
    | false => exact ppb_nil _ _
    | true =>
      simp only [LastFMClient.get_recent_tracks, if_true]
      exact lfmLoop_perPage fetch mapRec limit maxPages fuel 1 0
  . cases spOk with
    | false => exact ppb_nil _ _
    | true =>
      simp only [SpotifyClient.get_saved_tracks, if_true]
      exact spLoop_perPage fetch2 mapRec2 limit2 maxTracks fuel2 0 0

theorem all_noSleep_fwdIf {τ : Type} (c : Bool) (ep : String) (b : List τ) :
    (if c then [FetchEvent.forward ep b] else []).all (fun e => !e.isSleep) = true := by
  cases c <;> simp [FetchEvent.isSleep]

/-- Every Last.fm fetch trace pauses at least 200 ms between consecutive
page requests: the loop executes `time.sleep(0.2)` before advancing to the
next page. -/
theorem lfmLoop_pauses {rho tau : Type} (fetch : Nat -> Except Unit (List rho))
    (mapRec : rho -> tau) (limit : Nat) (maxPages : Option Nat) (send : Bool) :
    forall fuel page processed,
      pausesBetweenRequests 200
        (lfmLoop fetch mapRec limit maxPages send fuel page processed).2 = true := by
  intro fuel
  induction fuel with
  | zero => intro page processed; rfl
  | succ n ih =>
    intro page processed
    by_cases hcap : capReached maxPages processed = true
    . simp [lfmLoop, hcap, pausesBetweenRequests]
    . have hcap2 : capReached maxPages processed = false := by
        cases h2 : capReached maxPages processed with
        | false => rfl
        | true => exact absurd h2 hcap
      cases hf : fetch page with
      | error e =>
        simp [lfmLoop, hcap2, hf, pausesBetweenRequests, noRequestBeforeSleep]
      | ok results =>
        by_cases hempty : results.isEmpty = true
        . simp [lfmLoop, hcap2, hf, hempty, pausesBetweenRequests, noRequestBeforeSleep]
        . have hempty2 : results.isEmpty = false := by
            cases h2 : results.isEmpty with
            | false => rfl
            | true => exact absurd h2 hempty
          by_cases hshort : results.length < limit
          . cases hsend : send && !(results.map mapRec).isEmpty with
            | false =>
              simp [lfmLoop, hcap2, hf, hempty2, hshort, hsend,
                pausesBetweenRequests, noRequestBeforeSleep]
            | true =>
              simp [lfmLoop, hcap2, hf, hempty2, hshort, hsend,
                pausesBetweenRequests, noRequestBeforeSleep]
          . cases hsend : send && !(results.map mapRec).isEmpty with
            | false =>
              simp [lfmLoop, hcap2, hf, hempty2, hshort, hsend,
                pausesBetweenRequests, noRequestBeforeSleep, ih]
            | true =>
              simp [lfmLoop, hcap2, hf, hempty2, hshort, hsend,
                pausesBetweenRequests, noRequestBeforeSleep, ih]

/-- The Spotify saved-tracks loop contains no sleep at all: its trace
never holds a sleep event. -/
theorem spLoop_noSleep {rho tau : Type} (fetch : Nat -> Except Unit (Option (SpotifyPage rho)))
    (mapRec : rho -> Option tau) (limit : Nat) (maxTracks : Option Nat) (send : Bool) :
    forall fuel off total,
      ((spLoop fetch mapRec limit maxTracks send fuel off total).2).all
        (fun e => !e.isSleep) = true := by
  intro fuel
  induction fuel with
  | zero => intro off total; rfl
  | succ n ih =>
    intro off total
    cases hf : fetch off with
    | error e => simp [spLoop, hf, FetchEvent.isSleep]
    | ok res =>
      cases res with
      | none => simp [spLoop, hf, FetchEvent.isSleep]
      | some pg =>
        by_cases hemp : pg.items.isEmpty = true
        . simp [spLoop, hf, hemp, FetchEvent.isSleep]
        . have hemp2 : pg.items.isEmpty = false := by
            cases h2 : pg.items.isEmpty with
            | false => rfl
            | true => exact absurd h2 hemp
          by_cases hnext : pg.next = true
          . by_cases hcapv :
              capReached maxTracks (total + (pg.items.filterMap mapRec).length) = true
            . cases hsend : send && !(pg.items.filterMap mapRec).isEmpty with
              | false => simp [spLoop, hf, hemp2, hnext, hcapv, hsend, FetchEvent.isSleep]
              | true => simp [spLoop, hf, hemp2, hnext, hcapv, hsend, FetchEvent.isSleep]
            . have hcapv2 :
                  capReached maxTracks (total + (pg.items.filterMap mapRec).length) = false := by
                cases h2 : capReached maxTracks (total + (pg.items.filterMap mapRec).length) with
                | false => rfl
                | true => exact absurd h2 hcapv
              have h2 := ih (off + limit) (total + (pg.items.filterMap mapRec).length)
              simp only [List.all_eq_true] at h2
              cases hsend : send && !(pg.items.filterMap mapRec).isEmpty with
              | false =>
                simp [spLoop, hf, hemp2, hnext, hcapv2, hsend, FetchEvent.isSleep]
                intro x hx
                have h3 := h2 x hx
                simpa [FetchEvent.isSleep] using h3
              | true =>
                simp [spLoop, hf, hemp2, hnext, hcapv2, hsend, FetchEvent.isSleep]
                intro x hx
                have h3 := h2 x hx
                simpa [FetchEvent.isSleep] using h3
          . have hnext2 : pg.next = false := by
              cases h2 : pg.next with
              | false => rfl
              | true => exact absurd h2 hnext
            cases hsend : send && !(pg.items.filterMap mapRec).isEmpty with
            | false => simp [spLoop, hf, hemp2, hnext2, hsend, FetchEvent.isSleep]
            | true => simp [spLoop, hf, hemp2, hnext2, hsend, FetchEvent.isSleep]

/-- C9 (amended): `LastFMClient.get_recent_tracks` pauses a fixed 200 ms
(`time.sleep(0.2)`) between consecutive successful page fetches - after
every request, a sleep of at least 200 ms occurs before any further
request in the trace.  `SpotifyClient.get_saved_tracks`, however, contains
no delay at all: its trace never holds a sleep event, so consecutive page
requests are issued back to back. -/
theorem C9_amended (rho tau rho2 tau2 : Type)
    (fetch : Nat -> Except Unit (List rho)) (mapRec : rho -> tau)
    (limit : Nat) (maxPages : Option Nat) (send : Bool) (fuel : Nat) (userOk : Bool)
    (fetch2 : Nat -> Except Unit (Option (SpotifyPage rho2))) (mapRec2 : rho2 -> Option tau2)
    (limit2 : Nat) (maxTracks : Option Nat) (send2 : Bool) (fuel2 : Nat) (spOk : Bool) :
    pausesBetweenRequests 200
      (LastFMClient.get_recent_tracks userOk fetch mapRec limit maxPages send fuel).2 = true ∧
    ((SpotifyClient.get_saved_tracks spOk fetch2 mapRec2 limit2 maxTracks send2 fuel2).2).all
      (fun e => !e.isSleep) = true := by
  constructor
  . cases userOk with
    | false => rfl
    | true =>
      simp only [LastFMClient.get_recent_tracks, if_true]
      exact lfmLoop_pauses fetch mapRec limit maxPages send fuel 1 0
  . cases spOk with
    | false => rfl
    | true =>
      simp only [SpotifyClient.get_saved_tracks, if_true]
      exact spLoop_noSleep fetch2 mapRec2 limit2 maxTracks send2 fuel2 0 0

/-- C9 counterexample: a Spotify fetch that issues two consecutive page
requests has no sleep between them - the pause predicate fails on its
trace, refuting the claim that both fetchers pause at least 200 ms between
successful page fetches. -/
theorem C9_counterexample :
    pausesBetweenRequests 200 ((SpotifyClient.get_saved_tracks true
      (fun _ => Except.ok (some (SpotifyPage.mk [(7 : Nat)] true)))
      (fun x => some x) 1 none true 2).2) = false := by
  decide
